import Mathlib

/-!
Verification of the trivial-statsd-client repository (src/lib.rs, src/pcg32.rs)
against its natural-language specification.

Modelling conventions:
* Machine integers (u32, u64) are `Nat` with explicit `% 2 ^ 32` / `% 2 ^ 64`
  where wrapping matters.
* `f64` values are rationals; each `f64` arithmetic operation is the exact
  rational operation followed by IEEE-754 round-to-nearest-even (`roundF64`).
  All rates reachable in the code lie in [0, 1], so neither overflow to
  infinity nor NaN can arise in the modelled computations.
* The thread-local PCG32 generator state is passed explicitly: an operation
  that samples takes the pre-call state and returns the post-call state.
* The ambient clock (`time::precise_time_ns`) is passed explicitly as `now`;
  operations that may read the clock additionally report how many clock reads
  they performed.
* The UDP sender is abstracted as in the repository's own test suite
  (`impl SendStats for RefCell<Vec<String>>`): an operation returns the list
  of payload strings it handed to the sender, so "exactly one payload is
  dispatched" is "the returned list is a singleton".
-/

/-! ### PCG32 generator (src/pcg32.rs) -/

/-- Semantics of Rust `u32::rotate_right`: rotate the low 32 bits of `x`
right by `n % 32` positions (`x` is a `u32`, i.e. `x < 2 ^ 32`). -/
def rotr32 (x n : ℕ) : ℕ :=
  ((x >>> (n % 32)) ||| (x <<< (32 - n % 32))) % 2 ^ 32

/-- Embeds the state update of `pcg32::random`:
`oldstate.wrapping_mul(6364136223846793005).wrapping_add(1442695040888963407)`. -/
def pcg32_step (state : ℕ) : ℕ :=
  (state * 6364136223846793005 + 1442695040888963407) % 2 ^ 64

/-- Embeds the output permutation of `pcg32::random`:
`((((oldstate >> 18) ^ oldstate) >> 27) as u32).rotate_right((oldstate >> 59) as u32)`
(each `as u32` is `% 2 ^ 32`). -/
def pcg32_output (oldstate : ℕ) : ℕ :=
  rotr32 ((((oldstate >>> 18) ^^^ oldstate) >>> 27) % 2 ^ 32) ((oldstate >>> 59) % 2 ^ 32)

/-- Embeds `pcg32::random`, with the thread-local state passed explicitly:
returns the 32-bit output (a permutation of the pre-advance state) and the
advanced state. -/
def pcg32_random (state : ℕ) : ℕ × ℕ :=
  (pcg32_output state, pcg32_step state)

/-! ### IEEE-754 double-precision model used by the `f64` code -/

/-- Round a rational to the nearest integer, ties to even
(the tie-breaking rule of IEEE-754 round-to-nearest). -/
def rndHalfEven (s : ℚ) : ℤ :=
  if s - ⌊s⌋ < 1 / 2 then ⌊s⌋
  else if 1 / 2 < s - ⌊s⌋ then ⌊s⌋ + 1
  else if ⌊s⌋ % 2 = 0 then ⌊s⌋ else ⌊s⌋ + 1

/-- Round a positive rational to the nearest `f64` (round-to-nearest-even).
The exponent is clamped below at -1022, giving the subnormal grid `2 ^ -1074`;
overflow (`q ≥ 2 ^ 1024`) cannot arise in the modelled computations, whose
values all lie in `[0, 2 ^ 32)`. -/
def roundPosF64 (q : ℚ) : ℚ :=
  let e : ℤ := max (Int.log 2 q) (-1022)
  let g : ℚ := 2 ^ (e - 52)
  rndHalfEven (q / g) * g

/-- Round a rational to the nearest `f64` value (round-to-nearest-even). -/
def roundF64 (q : ℚ) : ℚ :=
  if 0 < q then roundPosF64 q
  else if q < 0 then -roundPosF64 (-q)
  else 0

/-- Semantics of `f64` subtraction: exact difference, then rounding. -/
def fsub (x y : ℚ) : ℚ := roundF64 (x - y)

/-- Semantics of `f64` multiplication: exact product, then rounding. -/
def fmul (x y : ℚ) : ℚ := roundF64 (x * y)

/-- Semantics of Rust's `as u32` cast from `f64`: truncate toward zero,
saturating at the bounds of `u32`. -/
def f64_as_u32 (q : ℚ) : ℕ :=
  if q ≤ 0 then 0 else min (⌊q⌋.toNat) (2 ^ 32 - 1)

/-! ### Statsd client (src/lib.rs) -/

/-- Embeds `const MAX_UDP_PAYLOAD: usize = 576`. -/
def MAX_UDP_PAYLOAD : ℕ := 576

/-- Embeds `pub const FULL_SAMPLING_RATE: f64 = 1.0`. -/
def FULL_SAMPLING_RATE : ℚ := 1

/-- Embeds `to_int_rate`: `((1.0 - float_rate) * ::std::u32::MAX as f64) as u32`,
under the `f64` model above (`::std::u32::MAX as f64` is exactly 4294967295).
The leading `assert!(float_rate <= 1.0 && float_rate >= 0.0)` is modelled by
returning `none` (a panic) when the assertion fails. -/
def to_int_rate (float_rate : ℚ) : Option ℕ :=
  if float_rate ≤ 1 ∧ 0 ≤ float_rate then
    some (f64_as_u32 (fmul (fsub 1 float_rate) 4294967295))
  else none

/-- Embeds `accept_sample`: `pcg32::random() > int_rate`, with the generator
state passed explicitly; returns the decision and the advanced state. -/
def accept_sample (int_rate : ℕ) (state : ℕ) : Bool × ℕ :=
  let (r, s) := pcg32_random state
  (decide (r > int_rate), s)

/-- Embeds `struct StatsdOutlet` (the abstract sender field is modelled by
returning dispatched payloads from each operation instead). -/
structure StatsdOutlet where
  prefix_str : String
  int_rate : ℕ
  gauge_suffix : String
  count_suffix : String
  time_suffix : String
deriving DecidableEq, Repr

/-- Outcome of constructing an outlet: `ok` is `Ok(StatsdOutlet {..})`,
`err` is an `Err` return (an io error propagated with `?`), and `panic` is
an `assert!` failure. `StatsdOutlet::outlet` itself never returns `err`. -/
inductive OutletResult where
  | ok (o : StatsdOutlet)
  | err
  | panic
deriving DecidableEq, Repr

/-- Embeds `StatsdOutlet::outlet`. `render` stands for Rust's default `f64`
`Display` rendering (`format!("{}", float_rate)`), which the model treats as
an opaque text form of the construction-time float. -/
def StatsdOutlet.outlet (render : ℚ → String) (prefix_str : String) (float_rate : ℚ) : OutletResult :=
  if float_rate ≤ 1 ∧ 0 ≤ float_rate then
    match to_int_rate float_rate with
    | some ir =>
      let rate_suffix := if float_rate < 1 then "|@" ++ render float_rate else ""
      .ok { prefix_str := prefix_str
            int_rate := ir
            time_suffix := "|ms" ++ rate_suffix
            gauge_suffix := "|g" ++ rate_suffix
            count_suffix := "|c" ++ rate_suffix }
    | none => .panic
  else .panic

/-- Embeds the success path of `StatsdClient::new`: it binds a fresh local UDP
socket, marks it non-blocking, connects it to `address`, and passes it to
`StatsdOutlet::outlet`. The world of live endpoints is modelled as the list of
remote addresses of all currently-open sockets; each successful call appends
its own freshly created endpoint (bind/connect failures, which would return
`Err` before any endpoint is retained, are not modelled). When `outlet`
panics, the just-created socket is dropped during unwinding, leaving the world
unchanged. -/
def statsd_new (render : ℚ → String) (address prefix_str : String) (float_rate : ℚ)
    (world : List String) : OutletResult × List String :=
  match StatsdOutlet.outlet render prefix_str float_rate with
  | .ok o => (.ok o, world ++ [address])
  | r => (r, world)

/-- Embeds `StatsdOutlet::send`: concatenate the prefix and the given parts
into one buffer (created with capacity `MAX_UDP_PAYLOAD`, but growable) and
hand it to the sender; the resulting payload string is returned. -/
def StatsdOutlet.send (o : StatsdOutlet) (strings : List String) : String :=
  strings.foldl (· ++ ·) o.prefix_str

/-- Embeds `StatsdOutlet::count`: on sampler acceptance, dispatch
`key ++ ":" ++ value.to_string() ++ count_suffix` (prefixed by `send`).
Returns the dispatched payloads and the advanced generator state. -/
def StatsdOutlet.count (o : StatsdOutlet) (key : String) (value : ℕ) (state : ℕ) :
    List String × ℕ :=
  let (acc, s) := accept_sample o.int_rate state
  if acc then ([o.send [key, ":", toString value, o.count_suffix]], s) else ([], s)

/-- Embeds `StatsdOutlet::gauge`. -/
def StatsdOutlet.gauge (o : StatsdOutlet) (key : String) (value : ℕ) (state : ℕ) :
    List String × ℕ :=
  let (acc, s) := accept_sample o.int_rate state
  if acc then ([o.send [key, ":", toString value, o.gauge_suffix]], s) else ([], s)

/-- Embeds `StatsdOutlet::send_time_ms`: build the timer payload for an
interval already expressed in milliseconds. -/
def StatsdOutlet.send_time_ms (o : StatsdOutlet) (key : String) (interval_ms : ℕ) : String :=
  o.send [key, ":", toString interval_ms, o.time_suffix]

/-- Embeds `StatsdOutlet::time_interval_ms`. -/
def StatsdOutlet.time_interval_ms (o : StatsdOutlet) (key : String) (interval_ms : ℕ) (state : ℕ) :
    List String × ℕ :=
  let (acc, s) := accept_sample o.int_rate state
  if acc then ([o.send_time_ms key interval_ms], s) else ([], s)

/-- Embeds `StartTime::elapsed_ms`: `(time::precise_time_ns() - self.0) / 1_000_000`
with `u64` (wrapping) subtraction; `start` is the captured `StartTime` value and
`now` the clock value read at the call (both below `2 ^ 64`). -/
def elapsed_ms (start now : ℕ) : ℕ :=
  ((now + 2 ^ 64 - start) % 2 ^ 64) / 1000000

/-- Embeds `StatsdOutlet::stop_time`. The clock is explicit: `now` is the value
`time::precise_time_ns()` would return if read during this call. Returns the
dispatched payloads, the advanced generator state, and the number of clock
reads performed by the call. -/
def StatsdOutlet.stop_time (o : StatsdOutlet) (key : String) (start_time : ℕ) (now : ℕ) (state : ℕ) :
    List String × ℕ × ℕ :=
  let (acc, s) := accept_sample o.int_rate state
  if acc then ([o.send_time_ms key (elapsed_ms start_time now)], s, 1) else ([], s, 0)

/-- Outcome of the underlying non-blocking `UdpSocket::send`: full or short
write (`Ok(bytes_sent)`), would-block, or any other transport error. -/
inductive SendOutcome where
  | ok (bytesSent : ℕ)
  | wouldBlock
  | otherErr
deriving DecidableEq, Repr

/-- Embeds `impl SendStats for UdpSocket`: `match self.send(..) { Ok(_) => {}, _ => {} }`.
The transport outcome is ambient, so it is passed as a parameter. Returns the
value produced for the caller (always `()`: the function has no error channel)
and the number of transmissions attempted (the single non-blocking `send`). -/
def send_stats (payload : String) (outcome : SendOutcome) : Unit × ℕ :=
  (match outcome with
   | .ok _ => ()
   | .wouldBlock => ()
   | .otherErr => (), 1)

/-! ### Definitions taken from the specification's wording, for comparison -/

/-- Wording of the spec's payload format: the rate suffix is empty when
rate = 1.0 and `|@<rate>` otherwise. -/
def rate_suffix_spec (render : ℚ → String) (float_rate : ℚ) : String :=
  if float_rate = 1 then "" else "|@" ++ render float_rate

/-- Wording of the spec's threshold formula: `round((1.0 - rate) * UINT32_MAX)`
(rounding to nearest). -/
def to_threshold_spec (float_rate : ℚ) : ℤ :=
  round ((1 - float_rate) * 4294967295 : ℚ)

/-- Wording of the spec's prefix normalization: ensure exactly one trailing
`.` separator, appended if absent. -/
def normalize_prefix_spec (s : String) : String :=
  if s.data.getLast? = some '.' then s else s ++ "."

/-! ### General helper lemmas -/

theorem accept_sample_eq (t s : ℕ) :
    accept_sample t s = (decide (t < pcg32_output s), pcg32_step s) := rfl

theorem send_four (o : StatsdOutlet) (a b c d : String) :
    o.send [a, b, c, d] = o.prefix_str ++ a ++ b ++ c ++ d := rfl

theorem foldl_append_shift (l : List String) (a b : String) :
    l.foldl (· ++ ·) (a ++ b) = a ++ l.foldl (· ++ ·) b := by
  induction l generalizing b with
  | nil => rfl
  | cons c l ih => simp only [List.foldl_cons, String.append_assoc, ih]

theorem send_eq_join (o : StatsdOutlet) (l : List String) :
    o.send l = o.prefix_str ++ String.join l := by
  have h := foldl_append_shift l o.prefix_str ""
  rw [String.append_empty] at h
  exact h

theorem pcg32_output_lt (s : ℕ) : pcg32_output s < 2 ^ 32 := by
  unfold pcg32_output rotr32
  exact Nat.mod_lt _ (by norm_num)

/-! ### Claim C3 -/

/-- C3: for every threshold `t`, `accept_sample t` returns exactly
`next_u32() > t`, where the generator advances the 64-bit state by one
linear-congruential step (`state * M + C mod 2 ^ 64`, with fixed odd
multiplier and increment) and outputs a permutation of the pre-advance
state: an XOR with the state shifted right, a further right shift
truncated to 32 bits, then a rotate-right whose rotation amount is the
top bits of the pre-advance state. -/
theorem c3_accept_sample_spec :
    (∀ t s, accept_sample t s = (decide ((pcg32_random s).1 > t), (pcg32_random s).2)) ∧
    (∀ s, pcg32_random s =
      (rotr32 ((((s >>> 18) ^^^ s) >>> 27) % 2 ^ 32) ((s >>> 59) % 2 ^ 32),
       (s * 6364136223846793005 + 1442695040888963407) % 2 ^ 64)) ∧
    6364136223846793005 % 2 = 1 ∧
    1442695040888963407 % 2 = 1 ∧
    (∀ s, (pcg32_random s).1 < 2 ^ 32) := by
  exact ⟨fun t s => rfl, fun s => rfl, rfl, rfl, fun s => pcg32_output_lt s⟩

/-! ### Claim C7 -/

/-- C7: for every payload and every outcome of the underlying non-blocking
transmission (full write, short write, would-block, or any other transport
error), `send_stats` returns plain `()` to the caller — no error, no panic,
no retry — and attempts exactly one transmission. -/
theorem c7_send_stats_swallows (payload : String) (outcome : SendOutcome) :
    send_stats payload outcome = ((), 1) := by
  cases outcome <;> rfl

/-! ### Evaluation lemmas for the `f64` model -/

theorem int_log2_eq {q : ℚ} {e : ℤ} (h0 : 0 < q)
    (h1 : (2 : ℚ) ^ e ≤ q) (h2 : q < (2 : ℚ) ^ (e + 1)) :
    Int.log 2 q = e := by
  have ha : e ≤ Int.log 2 q :=
    (Int.zpow_le_iff_le_log (by norm_num) h0).mp (by exact_mod_cast h1)
  have hb : Int.log 2 q < e + 1 :=
    (Int.lt_zpow_iff_log_lt (by norm_num) h0).mp (by exact_mod_cast h2)
  omega

theorem rndHalfEven_intCast (n : ℤ) : rndHalfEven (n : ℚ) = n := by
  unfold rndHalfEven
  rw [Int.floor_intCast, if_pos (by norm_num : ((n : ℚ) - n) < 1 / 2)]

theorem roundPosF64_eq_self {q : ℚ} (n : ℤ) (h0 : 0 < q)
    (hn : (n : ℚ) = q / 2 ^ (max (Int.log 2 q) (-1022) - 52)) :
    roundPosF64 q = q := by
  show (rndHalfEven (q / 2 ^ (max (Int.log 2 q) (-1022) - 52)) : ℚ) *
      2 ^ (max (Int.log 2 q) (-1022) - 52) = q
  rw [← hn, rndHalfEven_intCast, hn,
    div_mul_cancel₀ _ (zpow_ne_zero _ (by norm_num : (2 : ℚ) ≠ 0))]

theorem roundF64_eq_self_pos {q : ℚ} (n : ℤ) (h0 : 0 < q)
    (hn : (n : ℚ) = q / 2 ^ (max (Int.log 2 q) (-1022) - 52)) :
    roundF64 q = q := by
  unfold roundF64
  rw [if_pos h0, roundPosF64_eq_self n h0 hn]

theorem roundF64_zero : roundF64 0 = 0 := by
  unfold roundF64
  norm_num

theorem roundF64_one : roundF64 1 = 1 := by
  have hl : Int.log 2 (1 : ℚ) = 0 := Int.log_one_right 2
  refine roundF64_eq_self_pos (2 ^ 52) one_pos ?_
  rw [hl]
  norm_num

theorem roundF64_max : roundF64 4294967295 = 4294967295 := by
  have hl : Int.log 2 (4294967295 : ℚ) = 31 :=
    int_log2_eq (by norm_num) (by norm_num) (by norm_num)
  refine roundF64_eq_self_pos (4294967295 * 2 ^ 21) (by norm_num) ?_
  rw [hl]
  norm_num

theorem roundF64_half : roundF64 (1 / 2) = 1 / 2 := by
  have hl : Int.log 2 ((1 : ℚ) / 2) = -1 :=
    int_log2_eq (by norm_num) (by norm_num) (by norm_num)
  refine roundF64_eq_self_pos (2 ^ 52) (by norm_num) ?_
  rw [hl]
  norm_num

theorem roundF64_quarter : roundF64 (1 / 4) = 1 / 4 := by
  have hl : Int.log 2 ((1 : ℚ) / 4) = -2 :=
    int_log2_eq (by norm_num) (by norm_num) (by norm_num)
  refine roundF64_eq_self_pos (2 ^ 52) (by norm_num) ?_
  rw [hl]
  norm_num

theorem roundF64_three_quarters : roundF64 (3 / 4) = 3 / 4 := by
  have hl : Int.log 2 ((3 : ℚ) / 4) = -1 :=
    int_log2_eq (by norm_num) (by norm_num) (by norm_num)
  refine roundF64_eq_self_pos (3 * 2 ^ 51) (by norm_num) ?_
  rw [hl]
  norm_num

theorem roundF64_half_max : roundF64 (4294967295 / 2) = 4294967295 / 2 := by
  have hl : Int.log 2 ((4294967295 : ℚ) / 2) = 30 :=
    int_log2_eq (by norm_num) (by norm_num) (by norm_num)
  refine roundF64_eq_self_pos (4294967295 * 2 ^ 21) (by norm_num) ?_
  rw [hl]
  norm_num

theorem roundF64_quarter_max : roundF64 (4294967295 / 4) = 4294967295 / 4 := by
  have hl : Int.log 2 ((4294967295 : ℚ) / 4) = 29 :=
    int_log2_eq (by norm_num) (by norm_num) (by norm_num)
  refine roundF64_eq_self_pos (4294967295 * 2 ^ 21) (by norm_num) ?_
  rw [hl]
  norm_num

theorem roundF64_three_quarters_max :
    roundF64 (3 * 4294967295 / 4) = 3 * 4294967295 / 4 := by
  have hl : Int.log 2 ((3 * 4294967295 : ℚ) / 4) = 31 :=
    int_log2_eq (by norm_num) (by norm_num) (by norm_num)
  refine roundF64_eq_self_pos (3 * 4294967295 * 2 ^ 19) (by norm_num) ?_
  rw [hl]
  norm_num

theorem floor_rat_eq {q : ℚ} {z : ℤ} (h1 : (z : ℚ) ≤ q) (h2 : q < z + 1) :
    ⌊q⌋ = z :=
  Int.floor_eq_iff.mpr ⟨h1, h2⟩

theorem to_int_rate_one : to_int_rate 1 = some 0 := by
  unfold to_int_rate
  rw [if_pos ⟨le_refl 1, zero_le_one⟩]
  have h1 : fsub 1 1 = 0 := by rw [fsub, sub_self, roundF64_zero]
  have h2 : fmul 0 4294967295 = 0 := by rw [fmul, zero_mul, roundF64_zero]
  rw [h1, h2]
  rfl

theorem to_int_rate_zero : to_int_rate 0 = some 4294967295 := by
  unfold to_int_rate
  rw [if_pos ⟨by norm_num, le_refl 0⟩]
  have h1 : fsub 1 0 = 1 := by rw [fsub, sub_zero, roundF64_one]
  have h2 : fmul 1 4294967295 = 4294967295 := by rw [fmul, one_mul, roundF64_max]
  rw [h1, h2, f64_as_u32, if_neg (by norm_num)]
  have h3 : ⌊(4294967295 : ℚ)⌋ = 4294967295 := floor_rat_eq (by norm_num) (by norm_num)
  rw [h3]
  decide

theorem to_int_rate_half : to_int_rate (1 / 2) = some 2147483647 := by
  unfold to_int_rate
  rw [if_pos ⟨by norm_num, by norm_num⟩]
  have h1 : fsub 1 (1 / 2) = 1 / 2 := by
    rw [fsub, show (1 : ℚ) - 1 / 2 = 1 / 2 by norm_num, roundF64_half]
  have h2 : fmul (1 / 2) 4294967295 = 4294967295 / 2 := by
    rw [fmul, show (1 : ℚ) / 2 * 4294967295 = 4294967295 / 2 by ring, roundF64_half_max]
  rw [h1, h2, f64_as_u32, if_neg (by norm_num)]
  have h3 : ⌊(4294967295 : ℚ) / 2⌋ = 2147483647 := floor_rat_eq (by norm_num) (by norm_num)
  rw [h3]
  decide

theorem to_int_rate_quarter : to_int_rate (1 / 4) = some 3221225471 := by
  unfold to_int_rate
  rw [if_pos ⟨by norm_num, by norm_num⟩]
  have h1 : fsub 1 (1 / 4) = 3 / 4 := by
    rw [fsub, show (1 : ℚ) - 1 / 4 = 3 / 4 by norm_num, roundF64_three_quarters]
  have h2 : fmul (3 / 4) 4294967295 = 3 * 4294967295 / 4 := by
    rw [fmul, show (3 : ℚ) / 4 * 4294967295 = 3 * 4294967295 / 4 by ring,
      roundF64_three_quarters_max]
  rw [h1, h2, f64_as_u32, if_neg (by norm_num)]
  have h3 : ⌊(3 * 4294967295 : ℚ) / 4⌋ = 3221225471 := floor_rat_eq (by norm_num) (by norm_num)
  rw [h3]
  decide

theorem to_int_rate_three_quarters : to_int_rate (3 / 4) = some 1073741823 := by
  unfold to_int_rate
  rw [if_pos ⟨by norm_num, by norm_num⟩]
  have h1 : fsub 1 (3 / 4) = 1 / 4 := by
    rw [fsub, show (1 : ℚ) - 3 / 4 = 1 / 4 by norm_num, roundF64_quarter]
  have h2 : fmul (1 / 4) 4294967295 = 4294967295 / 4 := by
    rw [fmul, show (1 : ℚ) / 4 * 4294967295 = 4294967295 / 4 by ring, roundF64_quarter_max]
  rw [h1, h2, f64_as_u32, if_neg (by norm_num)]
  have h3 : ⌊(4294967295 : ℚ) / 4⌋ = 1073741823 := floor_rat_eq (by norm_num) (by norm_num)
  rw [h3]
  decide

theorem outlet_eq_ok (render : ℚ → String) (p : String) {rate : ℚ}
    (h1 : rate ≤ 1) (h0 : 0 ≤ rate) :
    StatsdOutlet.outlet render p rate =
      .ok { prefix_str := p
            int_rate := f64_as_u32 (fmul (fsub 1 rate) 4294967295)
            gauge_suffix := "|g" ++ (if rate < 1 then "|@" ++ render rate else "")
            count_suffix := "|c" ++ (if rate < 1 then "|@" ++ render rate else "")
            time_suffix := "|ms" ++ (if rate < 1 then "|@" ++ render rate else "") } := by
  unfold StatsdOutlet.outlet to_int_rate
  rw [if_pos ⟨h1, h0⟩, if_pos ⟨h1, h0⟩]

theorem outlet_rate_one (render : ℚ → String) (p : String) :
    StatsdOutlet.outlet render p 1 =
      .ok { prefix_str := p, int_rate := 0
            gauge_suffix := "|g", count_suffix := "|c", time_suffix := "|ms" } := by
  have h := outlet_eq_ok render p (le_refl (1 : ℚ)) zero_le_one
  have h1 : fsub 1 1 = 0 := by rw [fsub, sub_self, roundF64_zero]
  have h2 : fmul 0 4294967295 = 0 := by rw [fmul, zero_mul, roundF64_zero]
  rw [h1, h2, if_neg (lt_irrefl (1 : ℚ))] at h
  simpa using h

theorem count_eq (o : StatsdOutlet) (key : String) (v s : ℕ) :
    o.count key v s =
      (if (accept_sample o.int_rate s).1 then
        [o.send [key, ":", toString v, o.count_suffix]] else [],
       pcg32_step s) := by
  rw [StatsdOutlet.count, accept_sample_eq]
  cases hd : decide (o.int_rate < pcg32_output s) <;>
    simp [accept_sample_eq, hd]

theorem gauge_eq (o : StatsdOutlet) (key : String) (v s : ℕ) :
    o.gauge key v s =
      (if (accept_sample o.int_rate s).1 then
        [o.send [key, ":", toString v, o.gauge_suffix]] else [],
       pcg32_step s) := by
  rw [StatsdOutlet.gauge, accept_sample_eq]
  cases hd : decide (o.int_rate < pcg32_output s) <;>
    simp [accept_sample_eq, hd]

theorem time_interval_ms_eq (o : StatsdOutlet) (key : String) (iv s : ℕ) :
    o.time_interval_ms key iv s =
      (if (accept_sample o.int_rate s).1 then [o.send_time_ms key iv] else [],
       pcg32_step s) := by
  rw [StatsdOutlet.time_interval_ms, accept_sample_eq]
  cases hd : decide (o.int_rate < pcg32_output s) <;>
    simp [accept_sample_eq, hd]

theorem stop_time_eq (o : StatsdOutlet) (key : String) (st now s : ℕ) :
    o.stop_time key st now s =
      (if (accept_sample o.int_rate s).1 then
        [o.send_time_ms key (elapsed_ms st now)] else [],
       pcg32_step s,
       if (accept_sample o.int_rate s).1 then 1 else 0) := by
  rw [StatsdOutlet.stop_time, accept_sample_eq]
  cases hd : decide (o.int_rate < pcg32_output s) <;>
    simp [accept_sample_eq, hd]

/-! ### Claim C1 -/

/-- C1: for every outlet and every `count`/`gauge`/`time_interval_ms` call that
the sampler accepts, exactly one payload is dispatched, and it is exactly
`<prefix><key>:<value><unit><rate-suffix>` with unit `|c` / `|g` / `|ms` and
rate-suffix empty at rate 1.0 and `|@<rate>` (with the construction-time
float's rendering) otherwise. -/
theorem c1_payload_format (render : ℚ → String) (p key : String) (rate : ℚ)
    (o : StatsdOutlet) (v s : ℕ)
    (hc : StatsdOutlet.outlet render p rate = .ok o)
    (ha : (accept_sample o.int_rate s).1 = true) :
    o.count key v s =
      ([p ++ key ++ ":" ++ toString v ++ "|c" ++ rate_suffix_spec render rate],
       pcg32_step s) ∧
    o.gauge key v s =
      ([p ++ key ++ ":" ++ toString v ++ "|g" ++ rate_suffix_spec render rate],
       pcg32_step s) ∧
    o.time_interval_ms key v s =
      ([p ++ key ++ ":" ++ toString v ++ "|ms" ++ rate_suffix_spec render rate],
       pcg32_step s) := by
  by_cases hr : rate ≤ 1 ∧ 0 ≤ rate
  · rw [outlet_eq_ok render p hr.1 hr.2] at hc
    injection hc with h
    subst h
    have hsfx : (if rate < 1 then "|@" ++ render rate else "") =
        rate_suffix_spec render rate := by
      unfold rate_suffix_spec
      rcases eq_or_lt_of_le hr.1 with heq | hlt
      · rw [heq]
        simp
      · rw [if_pos hlt, if_neg (ne_of_lt hlt)]
    refine ⟨?_, ?_, ?_⟩
    · rw [count_eq, if_pos ha, send_four]
      simp only [← hsfx, String.append_assoc]
    · rw [gauge_eq, if_pos ha, send_four]
      simp only [← hsfx, String.append_assoc]
    · rw [time_interval_ms_eq, if_pos ha, StatsdOutlet.send_time_ms, send_four]
      simp only [← hsfx, String.append_assoc]
  · rw [StatsdOutlet.outlet, if_neg hr] at hc
    exact absurd hc (by simp)

/-- Witness for C1 at the spec's own example: prefix `""`, rate 1.0, key
`"bouring"`, count 22, at a generator state the sampler accepts. -/
theorem c1_payload_format_witness :
    StatsdOutlet.count
        { prefix_str := "", int_rate := 0, gauge_suffix := "|g",
          count_suffix := "|c", time_suffix := "|ms" } "bouring" 22 (2 ^ 27) =
      (["bouring:22|c"], pcg32_step (2 ^ 27)) := by
  have h := (c1_payload_format (fun _ => "") "" "bouring" 1 _ 22 (2 ^ 27)
      (outlet_rate_one (fun _ => "") "") (by decide)).1
  rw [h]
  decide

/-! ### Claim C4 -/

/-- C4 counterexample: at rate 1.0001 (and -0.0001) the construction outcome
is an assertion panic, not a recoverable error value: the claim's "fatal to
that construction attempt but never to the process" describes a returned
configuration error, but the code rejects the rate with `assert!`, whose
panic is only contained if the embedding application catches it. -/
theorem c4_panic_counterexample :
    StatsdOutlet.outlet (fun _ => "") "" (10001 / 10000) = .panic ∧
    StatsdOutlet.outlet (fun _ => "") "" (10001 / 10000) ≠ .err ∧
    StatsdOutlet.outlet (fun _ => "") "" (-1 / 10000) = .panic := by
  have h1 : StatsdOutlet.outlet (fun _ => "") "" (10001 / 10000) = .panic := by
    rw [StatsdOutlet.outlet, if_neg (fun hcon => absurd hcon.1 (by norm_num))]
  have h2 : StatsdOutlet.outlet (fun _ => "") "" (-1 / 10000) = .panic := by
    rw [StatsdOutlet.outlet, if_neg (fun hcon => absurd hcon.2 (by norm_num))]
  exact ⟨h1, by rw [h1]; simp, h2⟩

/-- C4 (amended): every rate outside the closed interval [0, 1] is rejected at
construction time — the outcome is an assertion panic, never a silently
clamped outlet and never a recoverable error value. -/
theorem c4_out_of_range_panics (render : ℚ → String) (p : String) (rate : ℚ)
    (h : rate < 0 ∨ 1 < rate) :
    StatsdOutlet.outlet render p rate = .panic := by
  rw [StatsdOutlet.outlet, if_neg]
  rintro ⟨h1, h0⟩
  rcases h with h | h
  · exact absurd h0 (not_le.mpr h)
  · exact absurd h1 (not_le.mpr h)

/-- Witness for C4 at rate 1.0001. -/
theorem c4_out_of_range_panics_witness :
    StatsdOutlet.outlet (fun _ => "") "" (10001 / 10000) = .panic :=
  c4_out_of_range_panics (fun _ => "") "" (10001 / 10000) (Or.inr (by norm_num))

/-! ### Claim C5 -/

/-- C5: `stop_time` dispatches a timer payload if and only if the sampler
accepts; on acceptance the reported value is the elapsed nanoseconds
(`now - start`) floored to whole milliseconds by integer division by
1,000,000, and one clock read occurs; on rejection the elapsed-time
computation is skipped and no clock read occurs. -/
theorem c5_stop_time_spec (o : StatsdOutlet) (key : String) (st now s : ℕ)
    (h1 : st ≤ now) (h2 : now < 2 ^ 64) :
    o.stop_time key st now s =
      (if (accept_sample o.int_rate s).1 then
        [o.prefix_str ++ key ++ ":" ++ toString ((now - st) / 1000000) ++ o.time_suffix]
       else [],
       pcg32_step s,
       if (accept_sample o.int_rate s).1 then 1 else 0) := by
  rw [stop_time_eq]
  have he : elapsed_ms st now = (now - st) / 1000000 := by
    unfold elapsed_ms
    congr 1
    omega
  rw [StatsdOutlet.send_time_ms, send_four, he]

/-- Witness for C5 at start 5, now 3000005 (elapsed 3 ms), an accepting
generator state. -/
theorem c5_stop_time_spec_witness :
    StatsdOutlet.stop_time
        { prefix_str := "", int_rate := 0, gauge_suffix := "|g",
          count_suffix := "|c", time_suffix := "|ms" } "k" 5 3000005 (2 ^ 27) =
      (if (accept_sample 0 (2 ^ 27)).1 then ["k:3|ms"] else [],
       pcg32_step (2 ^ 27),
       if (accept_sample 0 (2 ^ 27)).1 then 1 else 0) := by
  have h := c5_stop_time_spec
      { prefix_str := "", int_rate := 0, gauge_suffix := "|g",
        count_suffix := "|c", time_suffix := "|ms" } "k" 5 3000005 (2 ^ 27)
      (by norm_num) (by norm_num)
  rw [h]
  decide

/-! ### Claim C10 -/

/-- C10: every `count` / `gauge` / `time_interval_ms` / `stop_time` call —
accepted or rejected — advances the generator state by exactly one
linear-congruential step; a rejected call dispatches nothing and (for
`stop_time`) reads the clock zero times, its generator advance being its one
state change. -/
theorem c10_rng_advance (o : StatsdOutlet) (key : String) (v iv st now s : ℕ) :
    (o.count key v s).2 = pcg32_step s ∧
    (o.gauge key v s).2 = pcg32_step s ∧
    (o.time_interval_ms key iv s).2 = pcg32_step s ∧
    (o.stop_time key st now s).2.1 = pcg32_step s ∧
    ((accept_sample o.int_rate s).1 = false →
      (o.count key v s).1 = [] ∧
      (o.gauge key v s).1 = [] ∧
      (o.time_interval_ms key iv s).1 = [] ∧
      (o.stop_time key st now s).1 = [] ∧
      (o.stop_time key st now s).2.2 = 0) := by
  refine ⟨?_, ?_, ?_, ?_, fun hrej => ?_⟩ <;>
    simp [count_eq, gauge_eq, time_interval_ms_eq, stop_time_eq, *]

/-- Witness for C10 at generator state 0, which the sampler rejects even at
threshold 0. -/
theorem c10_rng_advance_witness :
    (StatsdOutlet.count
        { prefix_str := "", int_rate := 0, gauge_suffix := "|g",
          count_suffix := "|c", time_suffix := "|ms" } "k" 1 0).2 = pcg32_step 0 ∧
    (StatsdOutlet.count
        { prefix_str := "", int_rate := 0, gauge_suffix := "|g",
          count_suffix := "|c", time_suffix := "|ms" } "k" 1 0).1 = [] ∧
    (StatsdOutlet.stop_time
        { prefix_str := "", int_rate := 0, gauge_suffix := "|g",
          count_suffix := "|c", time_suffix := "|ms" } "k" 3 4 0).2.2 = 0 := by
  have h := c10_rng_advance
      { prefix_str := "", int_rate := 0, gauge_suffix := "|g",
        count_suffix := "|c", time_suffix := "|ms" } "k" 1 1 3 4 0
  have hrej := h.2.2.2.2 (by decide)
  exact ⟨h.1, hrej.1, hrej.2.2.2.2⟩

/-! ### Claim C6 -/

/-- C6 counterexample: two successful constructions, the second with a
different remote address, leave two live endpoints, not one — the second call
is not a no-op, and the code has no process-wide channel registry at all. -/
theorem c6_second_endpoint_counterexample :
    (statsd_new (fun _ => "") "a:1" "" 1 []).2 = ["a:1"] ∧
    (statsd_new (fun _ => "") "b:2" "" 1 ["a:1"]).2 = ["a:1", "b:2"] ∧
    ((statsd_new (fun _ => "") "b:2" "" 1 ["a:1"]).2).length ≠ 1 := by
  have h1 := outlet_rate_one (fun _ => ("" : String)) ""
  refine ⟨?_, ?_, ?_⟩ <;> simp [statsd_new, h1]

/-- C6 (amended): each client construction creates and owns its own channel
endpoint: a successful call appends exactly one endpoint, connected to the
address given to that call, and every call leaves all previously created
endpoints (and hence the destinations of previously constructed outlets)
untouched. -/
theorem c6_new_endpoint_amended (render : ℚ → String) (addr p : String) (rate : ℚ)
    (world : List String) :
    ((statsd_new render addr p rate world).2 = world ∨
      (statsd_new render addr p rate world).2 = world ++ [addr]) ∧
    (0 ≤ rate → rate ≤ 1 → (statsd_new render addr p rate world).2 = world ++ [addr]) ∧
    (∀ a, a ∈ world → a ∈ (statsd_new render addr p rate world).2) := by
  unfold statsd_new
  cases h : StatsdOutlet.outlet render p rate with
  | ok o => exact ⟨Or.inr rfl, fun _ _ => rfl, fun a ha => by simp [ha]⟩
  | err =>
    refine ⟨Or.inl rfl, fun h0 h1 => ?_, fun a ha => ha⟩
    rw [outlet_eq_ok render p h1 h0] at h
    exact absurd h (by simp)
  | panic =>
    refine ⟨Or.inl rfl, fun h0 h1 => ?_, fun a ha => ha⟩
    rw [outlet_eq_ok render p h1 h0] at h
    exact absurd h (by simp)

/-- Witness for C6 (amended) at rate 1 on an empty world. -/
theorem c6_new_endpoint_amended_witness :
    (statsd_new (fun _ => "") "a:1" "" 1 []).2 = [] ++ ["a:1"] :=
  (c6_new_endpoint_amended (fun _ => "") "a:1" "" 1 []).2.1 zero_le_one (le_refl 1)

/-! ### Claim C8 -/

/-- C8 counterexample: the prefix `"app"` is stored verbatim, not normalized
to `"app."`, and the dispatched payload starts with `"app"` directly glued to
the key, not with a `.`-terminated prefix. -/
theorem c8_no_normalization_counterexample :
    StatsdOutlet.outlet (fun _ => "") "app" 1 =
      .ok { prefix_str := "app", int_rate := 0, gauge_suffix := "|g",
            count_suffix := "|c", time_suffix := "|ms" } ∧
    "app" ≠ normalize_prefix_spec "app" ∧
    (StatsdOutlet.count
        { prefix_str := "app", int_rate := 0, gauge_suffix := "|g",
          count_suffix := "|c", time_suffix := "|ms" } "k" 7 (2 ^ 27)).1 =
      ["appk:7|c"] ∧
    "appk:7|c" ≠ normalize_prefix_spec "app" ++ "k:7|c" := by
  refine ⟨outlet_rate_one (fun _ => "") "app", ?_, by decide, ?_⟩
  · simp only [normalize_prefix_spec]
    norm_num
    decide
  · simp only [normalize_prefix_spec]
    norm_num
    decide

/-- C8 (amended): the stored prefix is exactly the text supplied at
construction — no separator is appended or deduplicated — and every payload
built by `send` begins with that verbatim prefix. -/
theorem c8_verbatim_prefix_amended (render : ℚ → String) (p : String) (rate : ℚ)
    (o : StatsdOutlet) (parts : List String)
    (hc : StatsdOutlet.outlet render p rate = .ok o) :
    o.prefix_str = p ∧ o.send parts = p ++ String.join parts := by
  by_cases hr : rate ≤ 1 ∧ 0 ≤ rate
  · rw [outlet_eq_ok render p hr.1 hr.2] at hc
    injection hc with h
    subst h
    exact ⟨rfl, send_eq_join _ parts⟩
  · rw [StatsdOutlet.outlet, if_neg hr] at hc
    exact absurd hc (by simp)

/-- Witness for C8 (amended) at prefix `"app"`, rate 1. -/
theorem c8_verbatim_prefix_amended_witness :
    ({ prefix_str := "app", int_rate := 0, gauge_suffix := "|g",
       count_suffix := "|c", time_suffix := "|ms" } : StatsdOutlet).prefix_str = "app" ∧
    StatsdOutlet.send
        { prefix_str := "app", int_rate := 0, gauge_suffix := "|g",
          count_suffix := "|c", time_suffix := "|ms" } ["k", ":", "7", "|c"] =
      "app" ++ String.join ["k", ":", "7", "|c"] :=
  c8_verbatim_prefix_amended (fun _ => "") "app" 1 _ ["k", ":", "7", "|c"]
    (outlet_rate_one (fun _ => "") "app")

/-! ### Claim C9 -/

/-- Key of 600 ASCII characters, used to exhibit a payload longer than
`MAX_UDP_PAYLOAD`. -/
def key600 : String := String.mk (List.replicate 600 'a')

/-- C9 counterexample: with a 600-character key, a dispatched count payload
has length 604 > 576: `String::with_capacity(MAX_UDP_PAYLOAD)` is only an
initial allocation, not a cap, so payload length is not bounded by 576. -/
theorem c9_payload_exceeds_576 :
    StatsdOutlet.outlet (fun _ => "") "" 1 =
      .ok { prefix_str := "", int_rate := 0, gauge_suffix := "|g",
            count_suffix := "|c", time_suffix := "|ms" } ∧
    (StatsdOutlet.count
        { prefix_str := "", int_rate := 0, gauge_suffix := "|g",
          count_suffix := "|c", time_suffix := "|ms" } key600 0 (2 ^ 27)).1 =
      ["" ++ key600 ++ ":" ++ toString 0 ++ "|c"] ∧
    ("" ++ key600 ++ ":" ++ toString 0 ++ "|c").length = 604 ∧
    MAX_UDP_PAYLOAD < 604 := by
  refine ⟨outlet_rate_one (fun _ => "") "", ?_, ?_, by norm_num [MAX_UDP_PAYLOAD]⟩
  · rw [count_eq, if_pos (by decide), send_four]
  · simp only [String.length_append, key600, String.length_mk, List.length_replicate]
    decide

/-- C9 (amended): the payload is assembled into a buffer pre-allocated with
capacity `MAX_UDP_PAYLOAD` = 576 but growable: its length is exactly the sum
of the lengths of the prefix and the parts, and it stays within 576 bytes iff
that sum does — nothing in `send` caps or truncates it. -/
theorem c9_payload_length_amended (o : StatsdOutlet) (parts : List String) :
    (o.send parts).length =
      o.prefix_str.length + (parts.map String.length).sum ∧
    ((o.send parts).length ≤ MAX_UDP_PAYLOAD ↔
      o.prefix_str.length + (parts.map String.length).sum ≤ 576) := by
  have hjoin : (String.join parts).length = (parts.map String.length).sum := by
    rw [String.join_eq, String.length_mk, List.length_flatten, List.map_map]
    rfl
  have hlen : (o.send parts).length =
      o.prefix_str.length + (parts.map String.length).sum := by
    rw [send_eq_join, String.length_append, hjoin]
  exact ⟨hlen, by rw [hlen, MAX_UDP_PAYLOAD]⟩

/-! ### Order properties of the rounding model (for claim C2) -/

theorem roundPosF64_def (q : ℚ) :
    roundPosF64 q =
      (rndHalfEven (q / 2 ^ (max (Int.log 2 q) (-1022) - 52)) : ℚ) *
        2 ^ (max (Int.log 2 q) (-1022) - 52) := rfl

theorem rndHalfEven_ge_floor (s : ℚ) : ⌊s⌋ ≤ rndHalfEven s := by
  unfold rndHalfEven
  split_ifs <;> omega

theorem rndHalfEven_le_floor_add_one (s : ℚ) : rndHalfEven s ≤ ⌊s⌋ + 1 := by
  unfold rndHalfEven
  split_ifs <;> omega

theorem rndHalfEven_mono {s t : ℚ} (h : s ≤ t) : rndHalfEven s ≤ rndHalfEven t := by
  rcases eq_or_lt_of_le (Int.floor_mono h) with heq | hlt
  · have hfeq : ⌊t⌋ = ⌊s⌋ := heq.symm
    have hab : s - ⌊s⌋ ≤ t - ⌊s⌋ := by linarith
    unfold rndHalfEven
    rw [hfeq]
    split_ifs <;> first | omega | linarith
  · calc rndHalfEven s ≤ ⌊s⌋ + 1 := rndHalfEven_le_floor_add_one s
      _ ≤ ⌊t⌋ := by omega
      _ ≤ rndHalfEven t := rndHalfEven_ge_floor t

theorem roundPosF64_nonneg {q : ℚ} (h : 0 < q) : 0 ≤ roundPosF64 q := by
  rw [roundPosF64_def]
  have hg : (0 : ℚ) < 2 ^ (max (Int.log 2 q) (-1022) - 52) := zpow_pos (by norm_num) _
  have hf : (0 : ℤ) ≤ ⌊q / 2 ^ (max (Int.log 2 q) (-1022) - 52)⌋ :=
    Int.floor_nonneg.mpr (le_of_lt (div_pos h hg))
  have hrnd := le_trans hf (rndHalfEven_ge_floor _)
  exact mul_nonneg (by exact_mod_cast hrnd) (le_of_lt hg)

theorem roundPosF64_le {q : ℚ} (h0 : 0 < q) :
    roundPosF64 q ≤ 2 ^ (max (Int.log 2 q) (-1022) + 1) := by
  have hle : Int.log 2 q ≤ max (Int.log 2 q) (-1022) := le_max_left _ _
  have hg : (0 : ℚ) < 2 ^ (max (Int.log 2 q) (-1022) - 52) := zpow_pos (by norm_num) _
  have hq : q < 2 ^ (max (Int.log 2 q) (-1022) + 1) := by
    refine lt_of_lt_of_le ?_ (zpow_le_zpow_right₀ (by norm_num) (by omega :
      Int.log 2 q + 1 ≤ max (Int.log 2 q) (-1022) + 1))
    exact_mod_cast Int.lt_zpow_succ_log_self (by norm_num) q
  have hs : q / 2 ^ (max (Int.log 2 q) (-1022) - 52) < 2 ^ (53 : ℤ) := by
    rw [div_lt_iff₀ hg, ← zpow_add₀ (by norm_num : (2 : ℚ) ≠ 0)]
    calc q < 2 ^ (max (Int.log 2 q) (-1022) + 1) := hq
      _ = 2 ^ (53 + (max (Int.log 2 q) (-1022) - 52)) := by ring_nf
  have hfl : ⌊q / 2 ^ (max (Int.log 2 q) (-1022) - 52)⌋ < (2 ^ 53 : ℤ) := by
    apply Int.floor_lt.mpr
    exact_mod_cast hs
  have hrnd : rndHalfEven (q / 2 ^ (max (Int.log 2 q) (-1022) - 52)) ≤ (2 ^ 53 : ℤ) :=
    le_trans (rndHalfEven_le_floor_add_one _) (by omega)
  rw [roundPosF64_def]
  calc (rndHalfEven (q / 2 ^ (max (Int.log 2 q) (-1022) - 52)) : ℚ) *
        2 ^ (max (Int.log 2 q) (-1022) - 52)
      ≤ ((2 ^ 53 : ℤ) : ℚ) * 2 ^ (max (Int.log 2 q) (-1022) - 52) :=
        mul_le_mul_of_nonneg_right (by exact_mod_cast hrnd) (le_of_lt hg)
    _ = 2 ^ (max (Int.log 2 q) (-1022) + 1) := by
        rw [show ((2 ^ 53 : ℤ) : ℚ) = (2 : ℚ) ^ (53 : ℤ) by norm_num,
          ← zpow_add₀ (by norm_num : (2 : ℚ) ≠ 0),
          show (53 : ℤ) + (max (Int.log 2 q) (-1022) - 52) =
            max (Int.log 2 q) (-1022) + 1 by ring]

theorem zpow_log_le_roundPosF64 {q : ℚ} (h0 : 0 < q) (hlog : -1022 ≤ Int.log 2 q) :
    2 ^ (Int.log 2 q) ≤ roundPosF64 q := by
  have hmax : max (Int.log 2 q) (-1022) = Int.log 2 q := max_eq_left hlog
  have hg : (0 : ℚ) < 2 ^ (Int.log 2 q - 52) := zpow_pos (by norm_num) _
  have hq : (2 : ℚ) ^ (Int.log 2 q) ≤ q := by
    exact_mod_cast Int.zpow_log_le_self (by norm_num) h0
  have hs : (2 : ℚ) ^ (52 : ℤ) ≤ q / 2 ^ (Int.log 2 q - 52) := by
    rw [le_div_iff₀ hg, ← zpow_add₀ (by norm_num : (2 : ℚ) ≠ 0)]
    calc (2 : ℚ) ^ (52 + (Int.log 2 q - 52)) = 2 ^ (Int.log 2 q) := by ring_nf
      _ ≤ q := hq
  have hfl : (2 ^ 52 : ℤ) ≤ ⌊q / 2 ^ (Int.log 2 q - 52)⌋ := by
    apply Int.le_floor.mpr
    exact_mod_cast hs
  have hrnd : (2 ^ 52 : ℤ) ≤ rndHalfEven (q / 2 ^ (Int.log 2 q - 52)) :=
    le_trans hfl (rndHalfEven_ge_floor _)
  rw [roundPosF64_def, hmax]
  calc (2 : ℚ) ^ (Int.log 2 q) = ((2 ^ 52 : ℤ) : ℚ) * 2 ^ (Int.log 2 q - 52) := by
        rw [show ((2 ^ 52 : ℤ) : ℚ) = (2 : ℚ) ^ (52 : ℤ) by norm_num,
          ← zpow_add₀ (by norm_num : (2 : ℚ) ≠ 0),
          show (52 : ℤ) + (Int.log 2 q - 52) = Int.log 2 q by ring]
    _ ≤ (rndHalfEven (q / 2 ^ (Int.log 2 q - 52)) : ℚ) * 2 ^ (Int.log 2 q - 52) :=
        mul_le_mul_of_nonneg_right (by exact_mod_cast hrnd) (le_of_lt hg)

theorem roundPosF64_mono {x y : ℚ} (hx : 0 < x) (hxy : x ≤ y) :
    roundPosF64 x ≤ roundPosF64 y := by
  have hy : 0 < y := lt_of_lt_of_le hx hxy
  have hlog : Int.log 2 x ≤ Int.log 2 y := Int.log_mono_right hx hxy
  have hexy : max (Int.log 2 x) (-1022) ≤ max (Int.log 2 y) (-1022) :=
    max_le_max hlog (le_refl _)
  rcases eq_or_lt_of_le hexy with heq | hlt
  · rw [roundPosF64_def, roundPosF64_def, ← heq]
    have hg : (0 : ℚ) < 2 ^ (max (Int.log 2 x) (-1022) - 52) := zpow_pos (by norm_num) _
    have hdiv : x / 2 ^ (max (Int.log 2 x) (-1022) - 52) ≤
        y / 2 ^ (max (Int.log 2 x) (-1022) - 52) := by gcongr
    exact mul_le_mul_of_nonneg_right (by exact_mod_cast rndHalfEven_mono hdiv)
      (le_of_lt hg)
  · have hylog : -1022 ≤ Int.log 2 y := by
      by_contra hcon
      push_neg at hcon
      rw [max_eq_right (le_of_lt hcon)] at hlt
      have := le_max_right (Int.log 2 x) (-1022)
      omega
    calc roundPosF64 x ≤ 2 ^ (max (Int.log 2 x) (-1022) + 1) := roundPosF64_le hx
      _ ≤ 2 ^ (max (Int.log 2 y) (-1022)) := zpow_le_zpow_right₀ (by norm_num) (by omega)
      _ = 2 ^ (Int.log 2 y) := by rw [max_eq_left hylog]
      _ ≤ roundPosF64 y := zpow_log_le_roundPosF64 hy hylog

theorem roundF64_nonneg {q : ℚ} (h : 0 ≤ q) : 0 ≤ roundF64 q := by
  unfold roundF64
  rcases eq_or_lt_of_le h with heq | hpos
  · rw [← heq]
    norm_num
  · rw [if_pos hpos]
    exact roundPosF64_nonneg hpos

theorem roundF64_mono {x y : ℚ} (hx : 0 ≤ x) (hxy : x ≤ y) :
    roundF64 x ≤ roundF64 y := by
  rcases eq_or_lt_of_le hx with heq | hpos
  · rw [← heq, roundF64_zero]
    exact roundF64_nonneg (heq ▸ hxy)
  · unfold roundF64
    rw [if_pos hpos, if_pos (lt_of_lt_of_le hpos hxy)]
    exact roundPosF64_mono hpos hxy

theorem f64_as_u32_mono {x y : ℚ} (h : x ≤ y) : f64_as_u32 x ≤ f64_as_u32 y := by
  unfold f64_as_u32
  split_ifs with h1 h2 h2
  · exact le_refl 0
  · exact Nat.zero_le _
  · exact absurd (le_trans h h2) h1
  · have hf : ⌊x⌋ ≤ ⌊y⌋ := Int.floor_mono h
    exact min_le_min (by omega) (le_refl _)

theorem fsub_one_bounds {q : ℚ} (h0 : 0 ≤ q) (h1 : q ≤ 1) :
    0 ≤ fsub 1 q ∧ fsub 1 q ≤ 1 := by
  constructor
  · exact roundF64_nonneg (by linarith)
  · have h := roundF64_mono (x := 1 - q) (by linarith) (by linarith : 1 - q ≤ 1)
    rw [roundF64_one] at h
    exact h

theorem fmul_max_bounds {x : ℚ} (h0 : 0 ≤ x) (h1 : x ≤ 1) :
    0 ≤ fmul x 4294967295 ∧ fmul x 4294967295 ≤ 4294967295 := by
  constructor
  · exact roundF64_nonneg (mul_nonneg h0 (by norm_num))
  · have h := roundF64_mono (x := x * 4294967295) (mul_nonneg h0 (by norm_num))
      (by nlinarith : x * 4294967295 ≤ 4294967295)
    rw [roundF64_max] at h
    exact h

theorem to_int_rate_eq_floor {q : ℚ} (h0 : 0 ≤ q) (h1 : q ≤ 1) :
    to_int_rate q = some (⌊fmul (fsub 1 q) 4294967295⌋.toNat) := by
  obtain ⟨hs0, hs1⟩ := fsub_one_bounds h0 h1
  obtain ⟨hm0, hm1⟩ := fmul_max_bounds hs0 hs1
  unfold to_int_rate
  rw [if_pos ⟨h1, h0⟩]
  congr 1
  unfold f64_as_u32
  split_ifs with hz
  · have hz0 : fmul (fsub 1 q) 4294967295 = 0 := le_antisymm hz hm0
    rw [hz0]
    simp
  · have hfl : ⌊fmul (fsub 1 q) 4294967295⌋ ≤ 4294967295 := by
      have h := Int.floor_mono hm1
      rwa [show ⌊(4294967295 : ℚ)⌋ = 4294967295 from
        floor_rat_eq (by norm_num) (by norm_num)] at h
    rw [min_eq_left (by rw [show (2 ^ 32 - 1 : ℕ) = 4294967295 from by norm_num]; omega)]

theorem to_int_rate_antitone {q₁ q₂ : ℚ} (h0 : 0 ≤ q₁) (h12 : q₁ ≤ q₂) (h1 : q₂ ≤ 1) :
    (to_int_rate q₂).getD 0 ≤ (to_int_rate q₁).getD 0 := by
  rw [to_int_rate_eq_floor (le_trans h0 h12) h1, to_int_rate_eq_floor h0 (le_trans h12 h1)]
  simp only [Option.getD_some]
  have hs2 := fsub_one_bounds (le_trans h0 h12) h1
  have hsub : fsub 1 q₂ ≤ fsub 1 q₁ :=
    roundF64_mono (by linarith : (0 : ℚ) ≤ 1 - q₂) (by linarith : 1 - q₂ ≤ 1 - q₁)
  have hmul : fmul (fsub 1 q₂) 4294967295 ≤ fmul (fsub 1 q₁) 4294967295 :=
    roundF64_mono (mul_nonneg hs2.1 (by norm_num))
      (mul_le_mul_of_nonneg_right hsub (by norm_num))
  have h := Int.floor_mono hmul
  omega

/-! ### Claim C2 -/

/-- C2 counterexample: at rate 0.5 the code computes threshold 2147483647
(the `as u32` cast truncates toward zero), while the claimed formula
`round((1.0 - rate) * UINT32_MAX)` gives 2147483648: rounding to nearest is
not what the code does. -/
theorem c2_round_counterexample :
    to_int_rate (1 / 2) = some 2147483647 ∧
    to_threshold_spec (1 / 2) = 2147483648 ∧
    (2147483647 : ℤ) ≠ 2147483648 := by
  refine ⟨to_int_rate_half, ?_, by decide⟩
  unfold to_threshold_spec
  rw [round_eq, show ((1 : ℚ) - 1 / 2) * 4294967295 + 1 / 2 = 2147483648 from by norm_num]
  exact floor_rat_eq (by norm_num) (by norm_num)

/-- C2 (amended): for every rate in [0, 1] the conversion computes
`trunc((1.0 - rate) * UINT32_MAX)` — the `f64` product truncated toward zero,
not rounded to nearest; in particular `to_int_rate 1.0 = 0` and
`to_int_rate 0.0 = UINT32_MAX`, and the threshold is monotonically
non-increasing as the rate increases. -/
theorem c2_threshold_amended :
    (∀ q : ℚ, 0 ≤ q → q ≤ 1 →
      to_int_rate q = some (⌊fmul (fsub 1 q) 4294967295⌋.toNat)) ∧
    to_int_rate 1 = some 0 ∧
    to_int_rate 0 = some 4294967295 ∧
    (∀ q₁ q₂ : ℚ, 0 ≤ q₁ → q₁ ≤ q₂ → q₂ ≤ 1 →
      (to_int_rate q₂).getD 0 ≤ (to_int_rate q₁).getD 0) :=
  ⟨fun _ h0 h1 => to_int_rate_eq_floor h0 h1, to_int_rate_one, to_int_rate_zero,
   fun _ _ h0 h12 h1 => to_int_rate_antitone h0 h12 h1⟩

/-- Witness for C2 (amended) at rates 0.5 and the pair 0.25 ≤ 0.75. -/
theorem c2_threshold_amended_witness :
    to_int_rate (1 / 2) = some (⌊fmul (fsub 1 (1 / 2)) 4294967295⌋.toNat) ∧
    (to_int_rate (3 / 4)).getD 0 ≤ (to_int_rate (1 / 4)).getD 0 :=
  ⟨c2_threshold_amended.1 (1 / 2) (by norm_num) (by norm_num),
   c2_threshold_amended.2.2.2 (1 / 4) (3 / 4) (by norm_num) (by norm_num) (by norm_num)⟩
